import Mathlib

/-!
Shallow embedding of the markup-to-document pipeline of the repository
(`src/agents/report_generator.py`, `src/agents/ppt_generator.py`,
`src/agents/multi_template_ppt_generator.py`,
`src/templates/presentation_templates.py`) together with proofs of the
behavioural claims about it.

Strings are modelled as `List Char`.  Python's `re` patterns used by the
code are all of the simple non-greedy form `<tag>(.*?)</tag>` (with
`re.DOTALL`, sometimes `re.IGNORECASE`); they are embedded by explicit
left-to-right scanners.  Scanners recurse on an explicit fuel argument
which every entry point instantiates with the length of the scanned
string; each scanning step consumes at least one character, so this fuel
is always sufficient and the functions are total, mirroring the fact
that the Python code never raises on string input.
-/

set_option maxRecDepth 100000

namespace ReportGen

/-- Lower-case an ASCII letter; other characters are unchanged.  Models the
case folding performed by `re.IGNORECASE` on the ASCII-only tag literals. -/
def asciiLower (c : Char) : Char :=
  if 'A' ≤ c ∧ c ≤ 'Z' then Char.ofNat (c.toNat + 32) else c

/-- Character comparison, optionally ASCII-case-insensitive. -/
def charEq (ci : Bool) (a b : Char) : Bool :=
  if ci then asciiLower a = asciiLower b else a = b

/-- Does `pat` occur at the very beginning of `s` (with optional
case-insensitivity)?  Models matching a literal piece of a pattern. -/
def leadsWith (ci : Bool) : List Char → List Char → Bool
  | [], _ => true
  | _ :: _, [] => false
  | p :: ps, c :: cs => charEq ci p c && leadsWith ci ps cs

/-- Index of the first occurrence of `pat` in `s`, if any.  Models the
search for the closing literal of a non-greedy group. -/
def findSub (ci : Bool) (pat : List Char) : List Char → Option Nat
  | [] => if leadsWith ci pat [] then some 0 else none
  | c :: cs =>
    if leadsWith ci pat (c :: cs) then some 0
    else
      match findSub ci pat cs with
      | some k => some (k + 1)
      | none => none

/-- Whether `pat` occurs anywhere in `s`. -/
def hasSub (ci : Bool) (pat s : List Char) : Bool :=
  (findSub ci pat s).isSome

/-- Number of (possibly overlapping) occurrence positions of `pat` in `s`. -/
def countOccur (ci : Bool) (pat : List Char) : List Char → Nat
  | [] => if leadsWith ci pat [] then 1 else 0
  | c :: cs => (if leadsWith ci pat (c :: cs) then 1 else 0) + countOccur ci pat cs

/-- Python's whitespace class: the characters stripped by `str.strip()`
and matched by `\s` (ASCII part plus the Unicode space characters). -/
def pyIsSpace (c : Char) : Bool :=
  let n := c.toNat
  (9 ≤ n && n ≤ 13) || n == 32 || (28 ≤ n && n ≤ 31) || n == 133 || n == 160 ||
  n == 0x1680 || (0x2000 ≤ n && n ≤ 0x200a) || n == 0x2028 || n == 0x2029 ||
  n == 0x202f || n == 0x205f || n == 0x3000

/-- Python `str.strip()`: remove leading and trailing whitespace. -/
def pyStrip (s : List Char) : List Char :=
  ((s.dropWhile pyIsSpace).reverse.dropWhile pyIsSpace).reverse

/-- Fuel-driven core of `replaceAll`; replaces every non-overlapping
occurrence of `pat` by `repl`, scanning left to right, exactly like
Python's `str.replace`. -/
def replaceAllAux (pat repl : List Char) : Nat → List Char → List Char
  | 0, s => s
  | _ + 1, [] => []
  | f + 1, c :: cs =>
    if pat ≠ [] && leadsWith false pat (c :: cs) then
      repl ++ replaceAllAux pat repl f (List.drop pat.length (c :: cs))
    else
      c :: replaceAllAux pat repl f cs

/-- Python `content.replace(pat, repl)` (for the non-empty patterns the
code uses). -/
def replaceAll (pat repl s : List Char) : List Char :=
  replaceAllAux pat repl s.length s

/-! ## Citation pairs (`ReportXMLParser._process_inline_citations`) -/

/-- One entry of the citation registry, as built by
`_process_inline_citations`: the assigned number, the (possibly
truncated) display name, the url and the full stripped name. -/
structure CitationInfo where
  number : Nat
  name : List Char
  url : List Char
  full_name : List Char
deriving DecidableEq

/-- Literal `<citation_name>`. -/
def citNameOpen : List Char := "<citation_name>".data

/-- Literal `</citation_name><citation_url>`: in the pattern
`<citation_name>(.*?)</citation_name><citation_url>(.*?)</citation_url>`
the two sub-tags are required to be immediately adjacent, so the middle
of the pattern is this single literal. -/
def citMid : List Char := "</citation_name><citation_url>".data

/-- Literal `</citation_url>`. -/
def citUrlClose : List Char := "</citation_url>".data

/-- Attempt to match the citation-pair pattern at the beginning of `s`.
Returns the two lazily-matched groups (raw name, raw url) and the total
matched length.  Lazy groups take the first occurrence of the following
literal; if a literal never occurs, extending an earlier group cannot
help (any later occurrence would also lie after the earlier one), so the
whole pattern fails at this position. -/
def tryCitAt (s : List Char) : Option (List Char × List Char × Nat) :=
  if leadsWith false citNameOpen s then
    let rest := s.drop citNameOpen.length
    match findSub false citMid rest with
    | some k =>
      let rest2 := rest.drop (k + citMid.length)
      match findSub false citUrlClose rest2 with
      | some j =>
        some (rest.take k, rest2.take j,
          citNameOpen.length + k + citMid.length + j + citUrlClose.length)
      | none => none
    | none => none
  else none

/-- Fuel-driven `re.finditer` loop for the citation-pair pattern:
try a match at every position, left to right, continuing after the end
of each match. -/
def citMatchesAux : Nat → List Char → List (List Char × List Char)
  | 0, _ => []
  | _ + 1, [] => []
  | f + 1, c :: cs =>
    match tryCitAt (c :: cs) with
    | some (n, u, len) => (n, u) :: citMatchesAux f (List.drop len (c :: cs))
    | none => citMatchesAux f cs

/-- All matches of the citation-pair pattern in `s`, in order. -/
def citMatches (s : List Char) : List (List Char × List Char) :=
  citMatchesAux s.length s

/-- Display name for a citation: the stripped name truncated to 50
characters plus an ellipsis when longer than 50 (`clean_title`). -/
def cleanTitleOf (name : List Char) : List Char :=
  if name.length > 50 then name.take 50 ++ "...".data else name

/-- The reconstructed tag text used for the inline replacement: note the
code rebuilds it from the *stripped* name and url. -/
def citationTag (name url : List Char) : List Char :=
  "<citation_name>".data ++ name ++ "</citation_name><citation_url>".data ++
    url ++ "</citation_url>".data

/-- The inline clickable citation marker
`<link href="url"><u>[n]</u></link>`. -/
def inlineLink (url : List Char) (n : Nat) : List Char :=
  "<link href=\"".data ++ url ++ "\"><u>[".data ++ (toString n).data ++
    "]</u></link>".data

/-- The `citation_info` record stored for an accepted pair. -/
def mkCitationInfo (n : Nat) (name url : List Char) : CitationInfo :=
  ⟨n, cleanTitleOf name, url, name⟩

/-- Core loop of `_process_inline_citations`: fold over the matches found
in the original content, threading the processed content, the citation
table (keyed by the decimal string of the number), the flat
`inline_citations` list and the counter.  A pair whose stripped name or
stripped url is empty is skipped without any effect. -/
def processInlineCitationsAux :
    List (List Char × List Char) → List Char →
    List (List Char × CitationInfo) → List CitationInfo → Nat →
    List Char × List (List Char × CitationInfo) × List CitationInfo × Nat
  | [], content, table, inline, c => (content, table, inline, c)
  | (rn, ru) :: ms, content, table, inline, c =>
    let name := pyStrip rn
    let url := pyStrip ru
    if name.isEmpty || url.isEmpty then
      processInlineCitationsAux ms content table inline c
    else
      let info := mkCitationInfo c name url
      let content' := replaceAll (citationTag name url) (inlineLink url c) content
      processInlineCitationsAux ms content'
        (table ++ [((toString c).data, info)]) (inline ++ [info]) (c + 1)

/-- Python `ReportXMLParser._process_inline_citations(content, citations_dict,
inline_citations, citation_counter)`. -/
def processInlineCitations (content : List Char)
    (table : List (List Char × CitationInfo)) (inline : List CitationInfo)
    (c : Nat) :
    List Char × List (List Char × CitationInfo) × List CitationInfo × Nat :=
  processInlineCitationsAux (citMatches content) content table inline c

/-- Specification helper: the list of citation records freshly created
when processing the match list `ms` with the counter starting at `c`. -/
def freshCits : List (List Char × List Char) → Nat → List CitationInfo
  | [], _ => []
  | (rn, ru) :: ms, c =>
    let name := pyStrip rn
    let url := pyStrip ru
    if name.isEmpty || url.isEmpty then freshCits ms c
    else mkCitationInfo c name url :: freshCits ms (c + 1)

/-! ## Block tags (`ReportXMLParser.parse_xml_tags`) -/

/-- One block-tag match: the section type derived from the pattern, the
lazily-matched inner text and the start offset of the match. -/
structure SectionMatch where
  type : List Char
  content : List Char
  start_pos : Nat
deriving DecidableEq

/-- Attempt to match `openTag (.*?) closeTag` at the beginning of `s`.
Returns the inner group and the total matched length. -/
def tryBlockAt (ci : Bool) (openTag closeTag s : List Char) :
    Option (List Char × Nat) :=
  if leadsWith ci openTag s then
    let rest := s.drop openTag.length
    match findSub ci closeTag rest with
    | some k => some (rest.take k, openTag.length + k + closeTag.length)
    | none => none
  else none

/-- Fuel-driven `re.finditer` loop for a block pattern, tracking the
offset of the current position in the original string. -/
def blockMatchesAux (ci : Bool) (openTag closeTag : List Char) :
    Nat → List Char → Nat → List (Nat × List Char)
  | 0, _, _ => []
  | _ + 1, [], _ => []
  | f + 1, c :: cs, off =>
    match tryBlockAt ci openTag closeTag (c :: cs) with
    | some (inner, len) =>
      (off, inner) :: blockMatchesAux ci openTag closeTag f
        (List.drop len (c :: cs)) (off + len)
    | none => blockMatchesAux ci openTag closeTag f cs (off + 1)

/-- All matches of a block pattern in `s`, with their start offsets. -/
def blockMatches (ci : Bool) (openTag closeTag s : List Char) :
    List (Nat × List Char) :=
  blockMatchesAux ci openTag closeTag s.length s 0

/-- The seven section patterns of `parse_xml_tags`, in source order:
section type name, opening literal, closing literal.  All are searched
with `re.IGNORECASE`. -/
def sectionPatterns : List (List Char × List Char × List Char) :=
  [("content".data, "<content>".data, "</content>".data),
   ("sub-heading-bold".data, "<sub-heading-bold>".data, "</sub-heading-bold>".data),
   ("sub-heading".data, "<sub-heading>".data, "</sub-heading>".data),
   ("section".data, "<section>".data, "</section>".data),
   ("paragraph".data, "<paragraph>".data, "</paragraph>".data),
   ("list".data, "<list>".data, "</list>".data),
   ("table".data, "<table>".data, "</table>".data)]

/-- All section matches of all seven patterns, appended pattern by
pattern exactly like the Python loop (pattern-major order, each
pattern's own matches in text order). -/
def allSectionMatches (s : List Char) : List SectionMatch :=
  (sectionPatterns.map (fun p =>
    (blockMatches true p.2.1 p.2.2 s).map
      (fun m => ⟨p.1, m.2, m.1⟩))).flatten

/-- Insert a match into a list already sorted by `start_pos`, after all
entries with a smaller-or-equal key: combined with a left fold this is a
stable sort, matching Python's stable `list.sort`. -/
def insertByStart (x : SectionMatch) : List SectionMatch → List SectionMatch
  | [] => [x]
  | y :: ys =>
    if y.start_pos ≤ x.start_pos then y :: insertByStart x ys else x :: y :: ys

/-- Stable sort of the section matches by start offset
(`all_sections.sort(key=lambda x: x['start_pos'])`). -/
def sortByStart (l : List SectionMatch) : List SectionMatch :=
  l.foldl (fun acc x => insertByStart x acc) []

/-- Fuel-driven `re.sub` loop for a non-greedy pair pattern: each match's
inner group is passed through `wrap`, the rest of the text is copied. -/
def subPairTagAux (ci : Bool) (openTag closeTag : List Char)
    (wrap : List Char → List Char) : Nat → List Char → List Char
  | 0, s => s
  | _ + 1, [] => []
  | f + 1, c :: cs =>
    match tryBlockAt ci openTag closeTag (c :: cs) with
    | some (inner, len) =>
      wrap inner ++ subPairTagAux ci openTag closeTag wrap f
        (List.drop len (c :: cs))
    | none => c :: subPairTagAux ci openTag closeTag wrap f cs

/-- Embedding of `re.sub(r'<tag>(.*?)</tag>', wrap, s, flags=DOTALL|IGNORECASE)`. -/
def subPairTag (ci : Bool) (openTag closeTag : List Char)
    (wrap : List Char → List Char) (s : List Char) : List Char :=
  subPairTagAux ci openTag closeTag wrap s.length s

/-- Python `ReportXMLParser._process_formatting_tags`: the six substitutions in
source order (bold, italic, underline, bullet, number, list). -/
def processFormattingTags (content : List Char) : List Char :=
  let c1 := subPairTag true "<bold>".data "</bold>".data
    (fun i => "<b>".data ++ i ++ "</b>".data) content
  let c2 := subPairTag true "<italic>".data "</italic>".data
    (fun i => "<i>".data ++ i ++ "</i>".data) c1
  let c3 := subPairTag true "<underline>".data "</underline>".data
    (fun i => "<u>".data ++ i ++ "</u>".data) c2
  let c4 := subPairTag true "<bullet>".data "</bullet>".data
    (fun i => "• ".data ++ i) c3
  let c5 := subPairTag true "<number>".data "</number>".data
    (fun i => "1. ".data ++ i) c4
  subPairTag true "<list>".data "</list>".data (fun i => i) c5

/-- One parsed section of the report: its type name and its processed
content. -/
structure ReportSection where
  type : List Char
  content : List Char
deriving DecidableEq

/-- The dictionary returned by `parse_xml_tags`. -/
structure ParsedReport where
  title : List Char
  sections : List ReportSection
  citations : List (List Char × CitationInfo)
  inline_citations : List CitationInfo
deriving DecidableEq

/-- The per-section loop of `parse_xml_tags`: process inline citations
(threading table, inline list and counter), then formatting tags, and
emit one `ReportSection` per match. -/
def parseSectionsAux :
    List SectionMatch → List (List Char × CitationInfo) → List CitationInfo →
    Nat →
    List ReportSection × List (List Char × CitationInfo) × List CitationInfo × Nat
  | [], table, inline, c => ([], table, inline, c)
  | m :: ms, table, inline, c =>
    let r := processInlineCitations m.content table inline c
    let processed := processFormattingTags r.1
    let rest := parseSectionsAux ms r.2.1 r.2.2.1 r.2.2.2
    (⟨m.type, processed⟩ :: rest.1, rest.2)

/-- The title search `re.search(r'<heading_bold>(.*?)</heading_bold>', …)`
(case-sensitive, first match only); the matched group is stripped.  Note
the heading-bold block is stored in the `title` field and is not one of
the sections. -/
def extractTitle (s : List Char) : List Char :=
  match blockMatches false "<heading_bold>".data "</heading_bold>".data s with
  | [] => []
  | m :: _ => pyStrip m.2

/-- Python `ReportXMLParser.parse_xml_tags`. -/
def parseXmlTags (xml : String) : ParsedReport :=
  let s := xml.data
  let sorted := sortByStart (allSectionMatches s)
  let r := parseSectionsAux sorted [] [] 1
  ⟨extractTitle s, r.1, r.2.1, r.2.2.1⟩

/-- Specification helper: the citation records freshly created when the
per-section loop runs over `ms` with the counter starting at `c`. -/
def freshSecCits : List SectionMatch → Nat → List CitationInfo
  | [], _ => []
  | m :: ms, c =>
    let f := freshCits (citMatches m.content) c
    f ++ freshSecCits ms (c + f.length)

/-- Modelled from the spec: the visible text of processed content as the
paginated renderer displays it.  ReportLab (an external library, not part
of `src/`) renders a `<link href="…">` span as its inner text made
clickable and a `<u>` span as its underlined inner text, so an inline
citation marker `<link href="url"><u>[n]</u></link>` is displayed as the
short clickable label `[n]`. -/
def displayedTextAux : Nat → List Char → List Char
  | 0, s => s
  | _ + 1, [] => []
  | f + 1, c :: cs =>
    if leadsWith false "<link href=\"".data (c :: cs) then
      match findSub false "\">".data (List.drop 12 (c :: cs)) with
      | some k => displayedTextAux f (List.drop (12 + k + 2) (c :: cs))
      | none => c :: displayedTextAux f cs
    else if leadsWith false "</link>".data (c :: cs) then
      displayedTextAux f (List.drop 7 (c :: cs))
    else if leadsWith false "<u>".data (c :: cs) then
      displayedTextAux f (List.drop 3 (c :: cs))
    else if leadsWith false "</u>".data (c :: cs) then
      displayedTextAux f (List.drop 4 (c :: cs))
    else c :: displayedTextAux f cs

/-- Visible text of processed content (see `displayedTextAux`). -/
def displayedText (s : List Char) : List Char :=
  displayedTextAux s.length s

/-- The section content of the concrete claim-C9 instance: one identical
citation pair occurring twice. -/
def c9Content : String :=
  "a <citation_name>S</citation_name><citation_url>u</citation_url> b <citation_name>S</citation_name><citation_url>u</citation_url> c"

/-- The exact raw input of the spec's concrete scenario (claim C2). -/
def c2Input : String :=
  "<heading_bold>Title</heading_bold><content>Hello <citation_name>Source A</citation_name><citation_url>http://a.test</citation_url> world</content>"

/-! ## Slide generator (`src/agents/ppt_generator.py`) -/

/-- One slide's parsed data (`PPTXMLParser._parse_slide_content` plus the
`type` attribute set by the caller). -/
structure SlideData where
  title : List Char
  subtitle : List Char
  bullet_points : List (List Char)
  content_blocks : List (List Char)
  visual_elements : List (List Char × List Char)
  notes : List Char
  type : List Char
deriving DecidableEq

/-- Attempt to match a two-group pattern `pre (.*?) mid (.*?) post` at the
beginning of `s` (used for the `<slide type="…">…</slide>` and
`<visual_element type="…">…</visual_element>` patterns).  Both groups are
lazy; as with the citation pattern, if `post` never occurs after the
first `mid`, extending the first group cannot produce a match at this
position. -/
def tryTwoGroupAt (ci : Bool) (pre mid post s : List Char) :
    Option (List Char × List Char × Nat) :=
  if leadsWith ci pre s then
    let rest := s.drop pre.length
    match findSub ci mid rest with
    | some k =>
      let rest2 := rest.drop (k + mid.length)
      match findSub ci post rest2 with
      | some j =>
        some (rest.take k, rest2.take j,
          pre.length + k + mid.length + j + post.length)
      | none => none
    | none => none
  else none

/-- Fuel-driven `re.finditer` loop for a two-group pattern. -/
def twoGroupMatchesAux (ci : Bool) (pre mid post : List Char) :
    Nat → List Char → List (List Char × List Char)
  | 0, _ => []
  | _ + 1, [] => []
  | f + 1, c :: cs =>
    match tryTwoGroupAt ci pre mid post (c :: cs) with
    | some (g1, g2, len) =>
      (g1, g2) :: twoGroupMatchesAux ci pre mid post f (List.drop len (c :: cs))
    | none => twoGroupMatchesAux ci pre mid post f cs

/-- All matches of a two-group pattern in `s`, in order. -/
def twoGroupMatches (ci : Bool) (pre mid post s : List Char) :
    List (List Char × List Char) :=
  twoGroupMatchesAux ci pre mid post s.length s

/-- All matches of `<slide type="(.*?)">(.*?)</slide>`
(DOTALL + IGNORECASE), as (type attribute, slide inner content). -/
def slideMatches (s : List Char) : List (List Char × List Char) :=
  twoGroupMatches true "<slide type=\"".data "\">".data "</slide>".data s

/-- All matches of `<visual_element type="(.*?)">(.*?)</visual_element>`
(DOTALL, case-sensitive). -/
def visualMatches (s : List Char) : List (List Char × List Char) :=
  twoGroupMatches false "<visual_element type=\"".data "\">".data
    "</visual_element>".data s

/-- Embedding of `re.search` for a pair pattern: the first match's group, if any. -/
def searchPair (o c s : List Char) : Option (List Char) :=
  match blockMatches false o c s with
  | [] => none
  | m :: _ => some m.2

/-- Python `PPTXMLParser._parse_slide_content` (the `type` field is filled in by
the caller; the `citation_counter`/`citations_dict` parameters of the
Python function are never read by its body and are omitted). -/
def parseSlideContent (content : List Char) : SlideData :=
  { title := match searchPair "<slide_title>".data "</slide_title>".data content with
      | some v => pyStrip v
      | none => []
    subtitle := match searchPair "<subtitle>".data "</subtitle>".data content with
      | some v => pyStrip v
      | none => []
    bullet_points :=
      (blockMatches false "<bullet>".data "</bullet>".data content).map
        (fun m => pyStrip m.2)
    content_blocks :=
      (blockMatches false "<content_block>".data "</content_block>".data content).map
        (fun m => pyStrip m.2)
    visual_elements := (visualMatches content).map (fun m => (m.1, pyStrip m.2))
    notes := match searchPair "<speaker_notes>".data "</speaker_notes>".data content with
      | some v => pyStrip v
      | none => []
    type := [] }

/-- The dictionary returned by `PPTXMLParser.parse_presentation_xml`.
The `citations` dict is initialised empty and never written to. -/
structure PresentationData where
  title : List Char
  template_type : List Char
  slides : List SlideData
  citations : List (List Char × CitationInfo)
  slide_count : Nat
deriving DecidableEq

/-- Python `PPTXMLParser.parse_presentation_xml`: extract the presentation
title and template type (defaults `''` / `'executive'`), then one
`SlideData` per slide-pattern match, with the matched type attribute
attached; no filtering by type happens here.  (The per-slide
`citation_counter` increment is dead state: `_parse_slide_content` never
reads it.) -/
def parsePresentationXml (xml : String) : PresentationData :=
  let s := xml.data
  let title := match searchPair "<presentation_title>".data
      "</presentation_title>".data s with
    | some v => pyStrip v
    | none => []
  let ttype := match searchPair "<template_type>".data "</template_type>".data s with
    | some v => pyStrip v
    | none => "executive".data
  let slides := (slideMatches s).map
    (fun m => { parseSlideContent m.2 with type := m.1 })
  ⟨title, ttype, slides, [], slides.length⟩

/-- A rendered slide: the layout index used by `add_slide`, the title
text, the subtitle placeholder (title slides only), the bullet body and
the optional speaker notes. -/
structure PptSlide where
  layout : Nat
  title : List Char
  subtitle : Option (List Char)
  body : List (List Char)
  notes : Option (List Char)
deriving DecidableEq

/-- Bullet formatting of `_create_content_slide`: strip, then prefix
`• ` unless the text already starts with a bullet. -/
def fmtBullet (p : List Char) : List Char :=
  let t := pyStrip p
  if leadsWith false "•".data t then t else "• ".data ++ t

/-- Block formatting of `_create_use_case_slide`: strip, then prefix
`• ` unless the text already starts with a bullet or one of the
`Problem:`/`Solution:`/`Benefits:` labels. -/
def fmtUseCaseBlock (b : List Char) : List Char :=
  let t := pyStrip b
  if leadsWith false "•".data t || leadsWith false "Problem:".data t ||
      leadsWith false "Solution:".data t || leadsWith false "Benefits:".data t
  then t else "• ".data ++ t

/-- Python `PPTPresentationGenerator._create_title_slide`: layout 0, title and
subtitle placeholders, no body, and — notably — no speaker notes are
attached on this path. -/
def createTitleSlide (d : SlideData) : PptSlide :=
  { layout := 0, title := d.title, subtitle := some d.subtitle,
    body := [], notes := none }

/-- Python `PPTPresentationGenerator._create_content_slide`: layout 1, body =
bullet points then content blocks, truncated to the first five
(`all_content[:5]`), speaker notes attached when non-empty. -/
def createContentSlide (d : SlideData) : PptSlide :=
  { layout := 1, title := d.title, subtitle := none,
    body := ((d.bullet_points ++ d.content_blocks).take 5).map fmtBullet,
    notes := if d.notes = [] then none else some d.notes }

/-- Python `PPTPresentationGenerator._create_use_case_slide`: layout 1, body =
content blocks then bullet points, truncated to the first five,
speaker notes attached when non-empty. -/
def createUseCaseSlide (d : SlideData) : PptSlide :=
  { layout := 1, title := d.title, subtitle := none,
    body := ((d.content_blocks ++ d.bullet_points).take 5).map fmtUseCaseBlock,
    notes := if d.notes = [] then none else some d.notes }

/-- Python `PPTPresentationGenerator._create_slide`: dispatch on the type
attribute; any unrecognized type falls through to the content-slide
branch. -/
def createSlide (d : SlideData) : PptSlide :=
  if d.type = "title_slide".data then createTitleSlide d
  else if d.type = "content_slide".data then createContentSlide d
  else if d.type = "use_case_slide".data then createUseCaseSlide d
  else createContentSlide d

/-- The slide-creation loop of `generate_presentation`:
`for slide_data in parsed_content['slides']: self._create_slide(…)` —
one slide appended per parsed slide, in order. -/
def renderSlides (parsed : PresentationData) : List PptSlide :=
  parsed.slides.map createSlide

/-! ## Template registry (`src/agents/multi_template_ppt_generator.py`,
`src/templates/presentation_templates.py`) -/

/-- The five template classes registered in `TEMPLATE_REGISTRY`. -/
inductive TemplateClass where
  | FirstDeckTemplate
  | MarketingTemplate
  | UseCaseTemplate
  | TechnicalTemplate
  | StrategyTemplate
deriving DecidableEq

/-- Association-list lookup, modelling Python `dict` access (keys are
distinct, insertion order preserved). -/
def regLookup (key : List Char) :
    List (List Char × TemplateClass) → Option TemplateClass
  | [] => none
  | (k, v) :: rest => if k = key then some v else regLookup key rest

/-- The fixed in-memory template catalogue `TEMPLATE_REGISTRY`. -/
def TEMPLATE_REGISTRY : List (List Char × TemplateClass) :=
  [("first_deck".data, TemplateClass.FirstDeckTemplate),
   ("marketing".data, TemplateClass.MarketingTemplate),
   ("use_case".data, TemplateClass.UseCaseTemplate),
   ("technical".data, TemplateClass.TechnicalTemplate),
   ("strategy".data, TemplateClass.StrategyTemplate)]

/-- The template validation in
`MultiTemplatePPTGenerator.generate_presentation`: an identifier not in
the registry is replaced by `first_deck`. -/
def validateStyle (s : List Char) : List Char :=
  if (regLookup s TEMPLATE_REGISTRY).isSome then s else "first_deck".data

/-- Lookup `TEMPLATE_REGISTRY[presentation_style]` after validation.  The
`none` branch is unreachable because `first_deck` is in the registry. -/
def resolveTemplate (s : List Char) : TemplateClass :=
  match regLookup (validateStyle s) TEMPLATE_REGISTRY with
  | some t => t
  | none => TemplateClass.FirstDeckTemplate

/-! ## Paginated renderer
(`ConsolidatedReportGenerator._create_professional_pdf_with_enhanced_formatting`) -/

/-- One ReportLab flowable appended to the `story`: a styled paragraph
(identified by its text and the name of its `ParagraphStyle`), a spacer,
or a horizontal rule of a given thickness. -/
inductive Flowable where
  | para (text : List Char) (style : List Char)
  | spacer (w h : Nat)
  | hr (thickness : Nat)
deriving DecidableEq

/-- Removal of a simple tag, `re.sub(r'</?name>', '', …)`: both the
opening and the closing form of the tag are deleted wherever they
occur. -/
def removeSimpleTag (name : List Char) : Nat → List Char → List Char
  | 0, s => s
  | _ + 1, [] => []
  | f + 1, c :: cs =>
    if leadsWith false ("<".data ++ name ++ ">".data) (c :: cs) then
      removeSimpleTag name f (List.drop (name.length + 2) (c :: cs))
    else if leadsWith false ("</".data ++ name ++ ">".data) (c :: cs) then
      removeSimpleTag name f (List.drop (name.length + 3) (c :: cs))
    else c :: removeSimpleTag name f cs

/-- Attempt to match the existing-citation-link pattern
`<link href="([^"]*)"><u>\[(\d+)\]</u></link>` at the beginning of `s`.
Group 1 is the greedy run of non-quote characters, group 2 the greedy
non-empty digit run. -/
def tryCitLinkAt (s : List Char) : Option (List Char × List Char × Nat) :=
  if leadsWith false "<link href=\"".data s then
    let rest := s.drop ("<link href=\"".data).length
    let href := rest.takeWhile (fun c => c ≠ '"')
    let rest2 := rest.drop href.length
    if leadsWith false "\"><u>[".data rest2 then
      let rest3 := rest2.drop ("\"><u>[".data).length
      let digits := rest3.takeWhile Char.isDigit
      if digits ≠ [] ∧
          leadsWith false "]</u></link>".data (rest3.drop digits.length) then
        some (href, digits,
          ("<link href=\"".data).length + href.length +
            ("\"><u>[".data).length + digits.length +
            ("]</u></link>".data).length)
      else none
    else none
  else none

/-- The enhanced round-citation replacement produced by the
`enhance_citation_link` callback (the citation-name lookup in the
callback does not contribute to the produced string). -/
def enhancedCitLink (href digits : List Char) : List Char :=
  "<link href=\"".data ++ href ++
    "\"><b><font face=\"Helvetica-Bold\" size=\"8\">&nbsp;[".data ++ digits ++
    "]&nbsp;</font></b></link>".data

/-- Fuel-driven `re.sub` loop for the citation-link pattern. -/
def subCitLinkAux : Nat → List Char → List Char
  | 0, s => s
  | _ + 1, [] => []
  | f + 1, c :: cs =>
    match tryCitLinkAt (c :: cs) with
    | some (href, digits, len) =>
      enhancedCitLink href digits ++ subCitLinkAux f (List.drop len (c :: cs))
    | none => c :: subCitLinkAux f cs

/-- Collapse every whitespace run to a single space,
`re.sub(r'\s+', ' ', …)`. -/
def collapseSpaces : Nat → List Char → List Char
  | 0, s => s
  | _ + 1, [] => []
  | f + 1, c :: cs =>
    if pyIsSpace c then ' ' :: collapseSpaces f (cs.dropWhile pyIsSpace)
    else c :: collapseSpaces f cs

/-- Word character, the ASCII part of the regex class `\w` (the markup
this pass runs over is ASCII). -/
def isWordChar (c : Char) : Bool :=
  c.isAlphanum || c = '_'

/-- The spacing pass `re.sub(r'(\w)\[(\d+)\]', r'\1 [\2]', …)`: insert a
space between a word character and an immediately following `[n]`. -/
def spaceBeforeMarkers : Nat → List Char → List Char
  | 0, s => s
  | _ + 1, [] => []
  | f + 1, c :: cs =>
    if isWordChar c then
      match cs with
      | '[' :: rest =>
        let ds := rest.takeWhile Char.isDigit
        if ds ≠ [] ∧ leadsWith false "]".data (rest.drop ds.length) then
          c :: ' ' :: '[' :: ds ++ ']' ::
            spaceBeforeMarkers f (rest.drop (ds.length + 1))
        else c :: spaceBeforeMarkers f cs
      | _ => c :: spaceBeforeMarkers f cs
    else c :: spaceBeforeMarkers f cs

/-- The spacing pass `re.sub(r'\[(\d+)\](\w)', r'[\1] \2', …)`: insert a
space between `[n]` and an immediately following word character. -/
def spaceAfterMarkers : Nat → List Char → List Char
  | 0, s => s
  | _ + 1, [] => []
  | f + 1, c :: cs =>
    if c = '[' then
      let ds := cs.takeWhile Char.isDigit
      if ds ≠ [] then
        match cs.drop ds.length with
        | ']' :: w :: rest =>
          if isWordChar w then
            '[' :: ds ++ ']' :: ' ' :: w :: spaceAfterMarkers f rest
          else c :: spaceAfterMarkers f cs
        | _ => c :: spaceAfterMarkers f cs
      else c :: spaceAfterMarkers f cs
    else c :: spaceAfterMarkers f cs

/-- Python `ConsolidatedReportGenerator._enhance_inline_citations_for_pdf`:
strip leftover content/paragraph/section tags, upgrade citation links to
the round style, collapse whitespace and strip, then fix spacing around
markers.  The `citations` argument is threaded for fidelity with the
Python signature; the callback's name lookup does not influence the
output text. -/
def enhanceInlineCitationsForPdf (content : List Char)
    (citations : List (List Char × CitationInfo)) : List Char :=
  let c1 := removeSimpleTag "content".data content.length content
  let c2 := removeSimpleTag "paragraph".data c1.length c1
  let c3 := removeSimpleTag "section".data c2.length c2
  let c4 := subCitLinkAux c3.length c3
  let c5 := pyStrip (collapseSpaces c4.length c4)
  let c6 := spaceBeforeMarkers c5.length c5
  let _ := citations
  spaceAfterMarkers c6.length c6

/-- The flowables emitted for one section of the report: nothing when
the raw content strips to empty, otherwise the styled paragraph(s) for
the section type (a list section becomes one bullet paragraph per
non-empty `•`-separated item) followed by a small spacer. -/
def sectionFlows (citations : List (List Char × CitationInfo))
    (sec : ReportSection) : List Flowable :=
  if pyStrip sec.content = [] then []
  else
    let cleaned := enhanceInlineCitationsForPdf sec.content citations
    let body : List Flowable :=
      if sec.type = "heading_bold".data then
        [Flowable.para cleaned "MainHeading".data]
      else if sec.type = "sub-heading-bold".data then
        [Flowable.para cleaned "SubHeadingBold".data]
      else if sec.type = "sub-heading".data then
        [Flowable.para cleaned "SubHeading".data]
      else if sec.type = "paragraph".data then
        [Flowable.para cleaned "ParagraphText".data]
      else if sec.type = "content".data then
        [Flowable.para cleaned "ContentText".data]
      else if sec.type = "list".data then
        (((cleaned.splitOn '•').map pyStrip).filter (fun i => i ≠ [])).map
          (fun i => Flowable.para ("• ".data ++ i) "BulletText".data)
      else [Flowable.para cleaned "ContentText".data]
    body ++ [Flowable.spacer 1 8]

/-- The reference entry text of one bibliography line:
`[{num}] <link href="{url}">{url}</link>`. -/
def citationEntryText (num url : List Char) : List Char :=
  "[".data ++ num ++ "] <link href=\"".data ++ url ++ "\">".data ++ url ++
    "</link>".data

/-- The citation-summary block of the story: nothing when the citation
table is empty (`if citations:`); otherwise a separator, the
`Citation Sources` heading and one reference paragraph (plus spacer) per
table entry, in the table's (insertion) order. -/
def citationSummaryFlows (citations : List (List Char × CitationInfo)) :
    List Flowable :=
  if citations = [] then []
  else
    [Flowable.spacer 1 20, Flowable.hr 1, Flowable.spacer 1 15,
     Flowable.para "Citation Sources".data "SubHeadingBold".data,
     Flowable.spacer 1 10] ++
    (citations.map (fun p =>
      [Flowable.para (citationEntryText p.1 p.2.url) "ContentText".data,
       Flowable.spacer 1 4])).flatten

/-- The `story` list built by
`_create_professional_pdf_with_enhanced_formatting`: title block, the
per-section flowables, then the citation summary.  (The title key always
exists in parser output, so the company-name fallback of
`parsed_content.get('title', …)` is unreachable; the parameter is kept
for signature fidelity.) -/
def buildStory (parsed : ParsedReport) (company_name : List Char) :
    List Flowable :=
  let _ := company_name
  [Flowable.para parsed.title "ReportTitle".data, Flowable.spacer 1 20,
   Flowable.hr 2, Flowable.spacer 1 20] ++
  (parsed.sections.map (sectionFlows parsed.citations)).flatten ++
  citationSummaryFlows parsed.citations

/-- Concrete slide data with seven bullet-equivalent items, used to
exercise the bullet cap. -/
def c7SlideData : SlideData :=
  { title := "Overloaded".data, subtitle := []
    bullet_points := ["b1".data, "b2".data, "b3".data, "b4".data]
    content_blocks := ["c1".data, "c2".data, "c3".data]
    visual_elements := [], notes := []
    type := "content_slide".data }

/-! ## Theorems -/

theorem replaceAllAux_no_occur (pat repl : List Char) :
    ∀ (f : Nat) (s : List Char), findSub false pat s = none →
      replaceAllAux pat repl f s = s := by
  intro f
  induction f with
  | zero => intro s _; rfl
  | succ f ih =>
    intro s h
    cases s with
    | nil => rfl
    | cons c cs =>
      simp only [findSub] at h
      by_cases hl : leadsWith false pat (c :: cs) = true
      · simp [hl] at h
      · simp only [replaceAllAux, hl, Bool.and_false, ne_eq]
        have hrec : findSub false pat cs = none := by
          simp only [hl] at h
          cases hcs : findSub false pat cs with
          | none => rfl
          | some k => simp [if_neg, hl, hcs] at h
        simp [hl, ih cs hrec]

/-- A pattern with no occurrence in `s` leaves `s` unchanged under
`replaceAll`. -/
theorem replaceAll_no_occur (pat repl s : List Char)
    (h : hasSub false pat s = false) : replaceAll pat repl s = s := by
  apply replaceAllAux_no_occur
  unfold hasSub at h
  cases hf : findSub false pat s with
  | none => rfl
  | some k => rw [hf] at h; simp [Option.isSome] at h

theorem processInlineCitationsAux_inline (ms : List (List Char × List Char)) :
    ∀ content table inline c,
      (processInlineCitationsAux ms content table inline c).2.2.1 =
        inline ++ freshCits ms c := by
  induction ms with
  | nil => intro content table inline c; simp [processInlineCitationsAux, freshCits]
  | cons m ms ih =>
    intro content table inline c
    obtain ⟨rn, ru⟩ := m
    simp only [processInlineCitationsAux, freshCits]
    by_cases h : (pyStrip rn).isEmpty || (pyStrip ru).isEmpty
    · simp [h, ih]
    · simp [h, ih]

theorem processInlineCitationsAux_table (ms : List (List Char × List Char)) :
    ∀ content table inline c,
      (processInlineCitationsAux ms content table inline c).2.1 =
        table ++ (freshCits ms c).map (fun i => ((toString i.number).data, i)) := by
  induction ms with
  | nil => intro content table inline c; simp [processInlineCitationsAux, freshCits]
  | cons m ms ih =>
    intro content table inline c
    obtain ⟨rn, ru⟩ := m
    simp only [processInlineCitationsAux, freshCits]
    by_cases h : (pyStrip rn).isEmpty || (pyStrip ru).isEmpty
    · simp [h, ih]
    · simp [h, ih, mkCitationInfo]

theorem processInlineCitationsAux_counter (ms : List (List Char × List Char)) :
    ∀ content table inline c,
      (processInlineCitationsAux ms content table inline c).2.2.2 =
        c + (freshCits ms c).length := by
  induction ms with
  | nil => intro content table inline c; simp [processInlineCitationsAux, freshCits]
  | cons m ms ih =>
    intro content table inline c
    obtain ⟨rn, ru⟩ := m
    simp only [processInlineCitationsAux, freshCits]
    by_cases h : (pyStrip rn).isEmpty || (pyStrip ru).isEmpty
    · simp [h, ih]
    · simp [h, ih]; omega

theorem freshCits_numbers (ms : List (List Char × List Char)) :
    ∀ c, (freshCits ms c).map (fun i => i.number) =
      List.range' c (freshCits ms c).length := by
  induction ms with
  | nil => intro c; simp [freshCits]
  | cons m ms ih =>
    intro c
    obtain ⟨rn, ru⟩ := m
    simp only [freshCits]
    by_cases h : (pyStrip rn).isEmpty || (pyStrip ru).isEmpty
    · simp [h, ih]
    · simp only [h, if_false, Bool.false_eq_true, List.map_cons, List.length_cons,
        mkCitationInfo, ih]
      rw [List.range'_succ]

theorem parseSectionsAux_types (ms : List SectionMatch) :
    ∀ table inline c,
      (parseSectionsAux ms table inline c).1.map (fun s => s.type) =
        ms.map (fun m => m.type) := by
  induction ms with
  | nil => intro table inline c; simp [parseSectionsAux]
  | cons m ms ih => intro table inline c; simp [parseSectionsAux, ih]

theorem parseSectionsAux_length (ms : List SectionMatch) :
    ∀ table inline c, (parseSectionsAux ms table inline c).1.length = ms.length := by
  intro table inline c
  have h := parseSectionsAux_types ms table inline c
  have := congrArg List.length h
  simpa using this

theorem parseSectionsAux_inline (ms : List SectionMatch) :
    ∀ table inline c,
      (parseSectionsAux ms table inline c).2.2.1 = inline ++ freshSecCits ms c := by
  induction ms with
  | nil => intro table inline c; simp [parseSectionsAux, freshSecCits]
  | cons m ms ih =>
    intro table inline c
    simp only [parseSectionsAux, freshSecCits, ih, processInlineCitations,
      processInlineCitationsAux_inline, processInlineCitationsAux_counter,
      List.append_assoc]

theorem parseSectionsAux_table (ms : List SectionMatch) :
    ∀ table inline c,
      (parseSectionsAux ms table inline c).2.1 =
        table ++ (freshSecCits ms c).map (fun i => ((toString i.number).data, i)) := by
  induction ms with
  | nil => intro table inline c; simp [parseSectionsAux, freshSecCits]
  | cons m ms ih =>
    intro table inline c
    simp only [parseSectionsAux, freshSecCits, ih, processInlineCitations,
      processInlineCitationsAux_table, processInlineCitationsAux_counter,
      List.map_append, List.append_assoc]

theorem freshSecCits_numbers (ms : List SectionMatch) :
    ∀ c, (freshSecCits ms c).map (fun i => i.number) =
      List.range' c (freshSecCits ms c).length := by
  induction ms with
  | nil => intro c; simp [freshSecCits]
  | cons m ms ih =>
    intro c
    simp only [freshSecCits, List.map_append, List.length_append,
      freshCits_numbers, ih]
    rw [List.range'_append_1, Nat.add_comm]

theorem mem_insertByStart {x a : SectionMatch} :
    ∀ {l : List SectionMatch}, a ∈ insertByStart x l ↔ a = x ∨ a ∈ l := by
  intro l
  induction l with
  | nil => simp [insertByStart]
  | cons y ys ih =>
    simp only [insertByStart]
    by_cases h : y.start_pos ≤ x.start_pos
    · simp only [h, if_true, List.mem_cons, ih]
      try tauto
    · simp only [h, if_false, List.mem_cons]
      try tauto

theorem pairwise_insertByStart {x : SectionMatch} :
    ∀ {l : List SectionMatch},
      List.Pairwise (fun a b => a.start_pos ≤ b.start_pos) l →
      List.Pairwise (fun a b => a.start_pos ≤ b.start_pos) (insertByStart x l) := by
  intro l
  induction l with
  | nil => intro _; simp [insertByStart]
  | cons y ys ih =>
    intro h
    rw [List.pairwise_cons] at h
    simp only [insertByStart]
    by_cases hyx : y.start_pos ≤ x.start_pos
    · simp only [hyx, if_true, List.pairwise_cons]
      refine ⟨?_, ih h.2⟩
      intro b hb
      rcases mem_insertByStart.mp hb with hbx | hbl
      · exact hbx ▸ hyx
      · exact h.1 b hbl
    · simp only [hyx, if_false, List.pairwise_cons]
      have hxy : x.start_pos ≤ y.start_pos := Nat.le_of_not_le hyx
      refine ⟨?_, h.1, h.2⟩
      intro b hb
      rcases List.mem_cons.mp hb with hby | hbl
      · exact hby ▸ hxy
      · exact Nat.le_trans hxy (h.1 b hbl)

theorem sortByStart_pairwise (l : List SectionMatch) :
    List.Pairwise (fun a b => a.start_pos ≤ b.start_pos) (sortByStart l) := by
  have key : ∀ (l : List SectionMatch) (acc : List SectionMatch),
      List.Pairwise (fun a b => a.start_pos ≤ b.start_pos) acc →
      List.Pairwise (fun a b => a.start_pos ≤ b.start_pos)
        (l.foldl (fun acc x => insertByStart x acc) acc) := by
    intro l
    induction l with
    | nil => intro acc h; exact h
    | cons y ys ih =>
      intro acc h
      exact ih (insertByStart y acc) (pairwise_insertByStart h)
  exact key l [] List.Pairwise.nil

theorem insertByStart_length (x : SectionMatch) :
    ∀ (l : List SectionMatch), (insertByStart x l).length = l.length + 1 := by
  intro l
  induction l with
  | nil => rfl
  | cons y ys ih =>
    simp only [insertByStart]
    by_cases h : y.start_pos ≤ x.start_pos
    · simp [h, ih]
    · simp [h]

theorem sortByStart_length (l : List SectionMatch) :
    (sortByStart l).length = l.length := by
  have key : ∀ (l acc : List SectionMatch),
      (l.foldl (fun acc x => insertByStart x acc) acc).length =
        acc.length + l.length := by
    intro l
    induction l with
    | nil => intro acc; simp
    | cons y ys ih =>
      intro acc
      simp only [List.foldl_cons, ih, insertByStart_length, List.length_cons]
      omega
  simpa using key l []

/-- Claim C1.  For every raw input string, the citation numbers entered
into the citation table during scanning are exactly `1, 2, …, k` with no
gaps, in the order the pairs are encountered (sections processed in
ascending start-offset order, counter threaded across them): the numbers
of the `inline_citations` list read `range' 1 k`, the citation table is
that same list keyed by the decimal string of each number, and the
numbers are strictly increasing along the table, so two occurrences of an
identical (name, url) pair necessarily receive two distinct numbers —
there is no deduplication by value. -/
theorem citation_numbers_monotone_from_one (xml : String) :
    (parseXmlTags xml).inline_citations.map (fun i => i.number) =
      List.range' 1 (parseXmlTags xml).inline_citations.length
    ∧ (parseXmlTags xml).citations =
      (parseXmlTags xml).inline_citations.map
        (fun i => ((toString i.number).data, i))
    ∧ List.Pairwise (fun a b : CitationInfo => a.number < b.number)
        (parseXmlTags xml).inline_citations := by
  have hinl : (parseXmlTags xml).inline_citations =
      freshSecCits (sortByStart (allSectionMatches xml.data)) 1 := by
    simp [parseXmlTags, parseSectionsAux_inline]
  have htab : (parseXmlTags xml).citations =
      (freshSecCits (sortByStart (allSectionMatches xml.data)) 1).map
        (fun i => ((toString i.number).data, i)) := by
    simp [parseXmlTags, parseSectionsAux_table]
  refine ⟨?_, ?_, ?_⟩
  · rw [hinl]; exact freshSecCits_numbers _ 1
  · rw [htab, hinl]
  · have h := freshSecCits_numbers (sortByStart (allSectionMatches xml.data)) 1
    have hp : List.Pairwise (· < ·)
        ((freshSecCits (sortByStart (allSectionMatches xml.data)) 1).map
          (fun i => i.number)) := by
      rw [h]; exact List.pairwise_lt_range' _ _
    rw [hinl]
    exact (List.pairwise_map.mp hp)

/-- Claim C3.  For every input, `parse_xml_tags` produces exactly one
section per block-pattern match (N sections for N matched open/close
pairs of the recognized block vocabulary), the sections appear in the
order of the stably-sorted match list, and that list is ordered by the
blocks' start offsets in the input. -/
theorem scan_section_count_in_source_order (xml : String) :
    (parseXmlTags xml).sections.length = (allSectionMatches xml.data).length
    ∧ (parseXmlTags xml).sections.map (fun s => s.type) =
      (sortByStart (allSectionMatches xml.data)).map (fun m => m.type)
    ∧ List.Pairwise (fun a b => a.start_pos ≤ b.start_pos)
        (sortByStart (allSectionMatches xml.data)) := by
  refine ⟨?_, ?_, sortByStart_pairwise _⟩
  · simp [parseXmlTags, parseSectionsAux_length, sortByStart_length]
  · simp [parseXmlTags, parseSectionsAux_types]

/-- Claim C5.  A citation pair whose name or url is empty after stripping
is skipped entirely: processing it changes neither the content (no
inline marker), nor the table, nor the inline list, nor the counter; and
a valid pair following it receives exactly the number the skipped pair
would have received. -/
theorem empty_citation_pair_skipped (rn ru : List Char)
    (ms : List (List Char × List Char)) (content : List Char)
    (table : List (List Char × CitationInfo)) (inline : List CitationInfo)
    (c : Nat) (h : pyStrip rn = [] ∨ pyStrip ru = []) :
    processInlineCitationsAux ((rn, ru) :: ms) content table inline c =
      processInlineCitationsAux ms content table inline c
    ∧ freshCits ((rn, ru) :: ms) c = freshCits ms c
    ∧ ∀ rn2 ru2 ms2, pyStrip rn2 ≠ [] → pyStrip ru2 ≠ [] →
        (freshCits ((rn, ru) :: (rn2, ru2) :: ms2) c).head? =
          some (mkCitationInfo c (pyStrip rn2) (pyStrip ru2)) := by
  have hb : ((pyStrip rn).isEmpty || (pyStrip ru).isEmpty) = true := by
    rcases h with h | h <;> simp [h]
  refine ⟨?_, ?_, ?_⟩
  · simp only [processInlineCitationsAux, hb, if_true]
  · simp only [freshCits, hb, if_true]
  · intro rn2 ru2 ms2 h2 h3
    have hb2 : ((pyStrip rn2).isEmpty || (pyStrip ru2).isEmpty) = false := by
      simp [List.isEmpty_iff, h2, h3]
    simp only [freshCits, hb, hb2, if_true, Bool.false_eq_true, if_false,
      List.head?_cons]

/-- Concrete closed instance for claim C5, the spec's scenario: an
empty-name pair with url `http://x.test` followed by a valid pair; the
invalid pair is a no-op and the valid pair receives number 1. -/
theorem empty_citation_pair_skipped_witness :
    processInlineCitationsAux
        [([], "http://x.test".data), ("Good".data, "http://y.test".data)]
        "irrelevant".data [] [] 1 =
      processInlineCitationsAux [("Good".data, "http://y.test".data)]
        "irrelevant".data [] [] 1
    ∧ (freshCits
        [([], "http://x.test".data), ("Good".data, "http://y.test".data)]
        1).head? = some (mkCitationInfo 1 "Good".data "http://y.test".data) := by
  have h := empty_citation_pair_skipped [] "http://x.test".data
    [("Good".data, "http://y.test".data)] "irrelevant".data [] [] 1
    (Or.inl (by decide))
  refine ⟨h.1, ?_⟩
  have h3 := h.2.2 "Good".data "http://y.test".data [] (by decide) (by decide)
  simpa using h3

theorem leadsWith_length {ci : Bool} :
    ∀ {p s : List Char}, leadsWith ci p s = true → p.length ≤ s.length := by
  intro p
  induction p with
  | nil => intro s _; simp
  | cons a ps ih =>
    intro s h
    cases s with
    | nil => simp [leadsWith] at h
    | cons c cs =>
      simp only [leadsWith, Bool.and_eq_true] at h
      simpa using ih h.2

theorem findSub_spec {ci : Bool} {pat : List Char} :
    ∀ {s : List Char} {k : Nat}, findSub ci pat s = some k →
      leadsWith ci pat (s.drop k) = true := by
  intro s
  induction s with
  | nil =>
    intro k h
    simp only [findSub] at h
    by_cases hl : leadsWith ci pat [] = true
    · simp only [hl, if_true, Option.some.injEq] at h
      subst h; simpa using hl
    · simp [hl] at h
  | cons c cs ih =>
    intro k h
    simp only [findSub] at h
    by_cases hl : leadsWith ci pat (c :: cs) = true
    · rw [if_pos hl] at h
      simp only [Option.some.injEq] at h
      subst h; simpa using hl
    · rw [if_neg hl] at h
      cases hcs : findSub ci pat cs with
      | none => rw [hcs] at h; simp at h
      | some j =>
        rw [hcs] at h
        simp only [Option.some.injEq] at h
        subst h
        simpa using ih hcs

theorem countOccur_tail_le (ci : Bool) (pat : List Char) :
    ∀ s : List Char, countOccur ci pat s.tail ≤ countOccur ci pat s := by
  intro s
  cases s with
  | nil => simp
  | cons c cs => simp only [List.tail_cons, countOccur]; omega

theorem countOccur_drop_le (ci : Bool) (pat : List Char) :
    ∀ (n : Nat) (s : List Char),
      countOccur ci pat (s.drop n) ≤ countOccur ci pat s := by
  intro n
  induction n with
  | zero => intro s; simp
  | succ n ih =>
    intro s
    cases s with
    | nil => simp
    | cons c cs =>
      calc countOccur ci pat ((c :: cs).drop (n + 1))
          = countOccur ci pat (cs.drop n) := by simp
        _ ≤ countOccur ci pat cs := ih cs
        _ ≤ countOccur ci pat (c :: cs) := by simp only [countOccur]; omega

theorem countOccur_lt_of_occur_before {ci : Bool} {pat : List Char}
    (hpat : pat ≠ []) {s : List Char} {k n : Nat}
    (hk : leadsWith ci pat (s.drop k) = true) (hkn : k < n) :
    countOccur ci pat (s.drop n) < countOccur ci pat s := by
  have hstep : countOccur ci pat (s.drop k) =
      1 + countOccur ci pat (s.drop (k + 1)) := by
    cases hdk : s.drop k with
    | nil =>
      rw [hdk] at hk
      cases pat with
      | nil => exact absurd rfl hpat
      | cons a ps => simp [leadsWith] at hk
    | cons c cs =>
      rw [hdk] at hk
      have hcs : cs = s.drop (k + 1) := by
        have := List.tail_drop s k
        rw [hdk] at this
        simpa using this
      rw [← hcs]
      simp [countOccur, hk]
  have h1 : countOccur ci pat (s.drop n) ≤ countOccur ci pat (s.drop (k + 1)) := by
    have : s.drop n = (s.drop (k + 1)).drop (n - (k + 1)) := by
      rw [List.drop_drop]
      congr 1
      omega
    rw [this]
    exact countOccur_drop_le ci pat _ _
  have h2 : countOccur ci pat (s.drop k) ≤ countOccur ci pat s :=
    countOccur_drop_le ci pat k s
  omega

theorem tryBlockAt_close_occurs {ci : Bool} {o c s inner : List Char} {len : Nat}
    (hc : c ≠ []) (h : tryBlockAt ci o c s = some (inner, len)) :
    ∃ k, leadsWith ci c (s.drop k) = true ∧ k < len := by
  unfold tryBlockAt at h
  by_cases ho : leadsWith ci o s = true
  · simp only [ho, if_true] at h
    cases hf : findSub ci c (s.drop o.length) with
    | none => rw [hf] at h; simp at h
    | some k =>
      rw [hf] at h
      simp only [Option.some.injEq, Prod.mk.injEq] at h
      refine ⟨o.length + k, ?_, ?_⟩
      · rw [← List.drop_drop]
        exact findSub_spec hf
      · have : 1 ≤ c.length := by
          cases c with
          | nil => exact absurd rfl hc
          | cons a cs => simp
        omega
  · simp [ho] at h

theorem blockMatchesAux_count_le {ci : Bool} {o c : List Char} (hc : c ≠ []) :
    ∀ (f : Nat) (s : List Char) (off : Nat),
      (blockMatchesAux ci o c f s off).length ≤ countOccur ci c s := by
  intro f
  induction f with
  | zero => intro s off; simp [blockMatchesAux]
  | succ f ih =>
    intro s off
    cases s with
    | nil => simp [blockMatchesAux]
    | cons ch cs =>
      simp only [blockMatchesAux]
      cases hm : tryBlockAt ci o c (ch :: cs) with
      | none =>
        calc (blockMatchesAux ci o c f cs (off + 1)).length
            ≤ countOccur ci c cs := ih cs (off + 1)
          _ ≤ countOccur ci c (ch :: cs) := by simp only [countOccur]; omega
      | some r =>
        obtain ⟨inner, len⟩ := r
        obtain ⟨k, hk, hklen⟩ := tryBlockAt_close_occurs hc hm
        have hlt := countOccur_lt_of_occur_before hc hk hklen
        simp only [List.length_cons]
        have := ih ((ch :: cs).drop len) (off + len)
        omega

theorem blockMatches_count_le {ci : Bool} {o c : List Char} (hc : c ≠ [])
    (s : List Char) : (blockMatches ci o c s).length ≤ countOccur ci c s :=
  blockMatchesAux_count_le hc s.length s 0

theorem allSectionMatches_length_le (s : List Char) :
    (allSectionMatches s).length ≤
      (sectionPatterns.map (fun p => countOccur true p.2.2 s)).sum := by
  have hne : ∀ p ∈ sectionPatterns, p.2.2 ≠ [] := by decide
  unfold allSectionMatches
  rw [List.length_flatten]
  simp only [List.map_map]
  apply List.sum_le_sum
  intro p hp
  simpa using blockMatches_count_le (hne p hp) s

/-- Claim C4.  The scan is a total function (the embedding, like the
Python code, has no failure path on string input), every produced
section consumes one close-tag occurrence — so an open block tag whose
close tag never occurs contributes no section — and on input containing
no close tags at all the result has zero sections. -/
theorem scan_total_unterminated_blocks_dropped (xml : String) :
    (parseXmlTags xml).sections.length ≤
      (sectionPatterns.map (fun p => countOccur true p.2.2 xml.data)).sum
    ∧ ((∀ p ∈ sectionPatterns, countOccur true p.2.2 xml.data = 0) →
        (parseXmlTags xml).sections = []) := by
  have hlen : (parseXmlTags xml).sections.length =
      (allSectionMatches xml.data).length := by
    simp [parseXmlTags, parseSectionsAux_length, sortByStart_length]
  constructor
  · rw [hlen]; exact allSectionMatches_length_le xml.data
  · intro h0
    have hsum : (sectionPatterns.map
        (fun p => countOccur true p.2.2 xml.data)).sum = 0 := by
      apply List.sum_eq_zero
      intro x hx
      rw [List.mem_map] at hx
      obtain ⟨p, hp, rfl⟩ := hx
      exact h0 p hp
    have := allSectionMatches_length_le xml.data
    rw [hsum] at this
    have hz : (parseXmlTags xml).sections.length = 0 := by omega
    exact List.length_eq_zero.mp hz

/-- Concrete closed instance for claim C4: an input consisting of a
single unterminated `<content>` open tag scans to zero sections. -/
theorem scan_total_unterminated_blocks_dropped_witness :
    (parseXmlTags "<content>left open, never closed").sections = [] :=
  (scan_total_unterminated_blocks_dropped "<content>left open, never closed").2
    (by decide)

theorem processAux_replicate_no_occur (name url : List Char)
    (hname : pyStrip name = name) (hn : name ≠ [])
    (hurl : pyStrip url = url) (hu : url ≠ [])
    (content : List Char)
    (hafter : hasSub false (citationTag name url) content = false) :
    ∀ (j : Nat) (t : List (List Char × CitationInfo)) (i : List CitationInfo)
      (c : Nat),
      processInlineCitationsAux (List.replicate j (name, url)) content t i c =
        (content,
         t ++ (List.range' c j).map
           (fun n => ((toString n).data, mkCitationInfo n name url)),
         i ++ (List.range' c j).map (fun n => mkCitationInfo n name url),
         c + j) := by
  have hval : (name.isEmpty || url.isEmpty) = false := by
    simp [List.isEmpty_iff, hn, hu]
  intro j
  induction j with
  | zero => intro t i c; simp [processInlineCitationsAux]
  | succ j ih =>
    intro t i c
    rw [List.replicate_succ]
    simp only [processInlineCitationsAux, hname, hurl, hval,
      Bool.false_eq_true, if_false]
    rw [replaceAll_no_occur _ _ _ hafter, ih]
    simp [List.range'_succ]
    omega

/-- Claim C9.  If the citation-pair matches of one section's content are
`k + 2` occurrences of one identical (name, url) pair (stripped-clean and
non-empty), then — provided the first replacement leaves no further
occurrence of the reconstructed tag, the generic situation — the
processed content equals the content with *every* occurrence of the tag
replaced by the marker of the FIRST assigned number, while the citation
table still receives `k + 2` distinct consecutively numbered entries:
the later numbers reach the bibliography but are never written into the
body text. -/
theorem duplicate_pair_first_marker (content name url : List Char) (k : Nat)
    (hname : pyStrip name = name) (hn : name ≠ [])
    (hurl : pyStrip url = url) (hu : url ≠ [])
    (hm : citMatches content = List.replicate (k + 2) (name, url))
    (hafter : hasSub false (citationTag name url)
        (replaceAll (citationTag name url) (inlineLink url 1) content) = false) :
    processInlineCitations content [] [] 1 =
      (replaceAll (citationTag name url) (inlineLink url 1) content,
       (List.range' 1 (k + 2)).map
         (fun n => ((toString n).data, mkCitationInfo n name url)),
       (List.range' 1 (k + 2)).map (fun n => mkCitationInfo n name url),
       k + 3) := by
  have hval : (name.isEmpty || url.isEmpty) = false := by
    simp [List.isEmpty_iff, hn, hu]
  unfold processInlineCitations
  rw [hm, List.replicate_succ]
  simp only [processInlineCitationsAux, hname, hurl, hval,
    Bool.false_eq_true, if_false]
  rw [replaceAll_no_occur _ _ _ hafter]
  rw [processAux_replicate_no_occur name url hname hn hurl hu _ hafter]
  have hsplit : List.range' 1 (k + 2) = [1, 2] ++ List.range' 3 k := by
    have h := List.range'_append_1 1 2 k
    rw [← h]
    rfl
  simp [hsplit, Nat.add_comm]

/-- Concrete closed instance for claim C9: both occurrences of the
repeated pair are replaced by the marker `[1]`, while entries numbered 1
and 2 are both recorded. -/
theorem duplicate_pair_first_marker_witness :
    processInlineCitations c9Content.data [] [] 1 =
      (replaceAll (citationTag "S".data "u".data) (inlineLink "u".data 1)
        c9Content.data,
       [("1".data, mkCitationInfo 1 "S".data "u".data),
        ("2".data, mkCitationInfo 2 "S".data "u".data)],
       [mkCitationInfo 1 "S".data "u".data, mkCitationInfo 2 "S".data "u".data],
       3) := by
  have h := duplicate_pair_first_marker c9Content.data "S".data "u".data 0
    (by decide) (by decide) (by decide) (by decide) (by decide) (by decide)
  rw [h]
  decide

/-- Claim C2.  Scanning the concrete scenario input yields the heading
text `Title` (held in the parser's `title` field, which is how
`parse_xml_tags` represents the heading-bold block), exactly one section,
of type `content`, whose processed text is `Hello` + inline marker +
`world` with the marker displayed as the clickable label `[1]`, and a
citation table whose single entry is number 1 with name `Source A` and
url `http://a.test`. -/
theorem concrete_scan_scenario :
    parseXmlTags c2Input =
      ⟨"Title".data,
       [⟨"content".data,
         "Hello <link href=\"http://a.test\"><u>[1]</u></link> world".data⟩],
       [("1".data, ⟨1, "Source A".data, "http://a.test".data, "Source A".data⟩)],
       [⟨1, "Source A".data, "http://a.test".data, "Source A".data⟩]⟩
    ∧ displayedText
        "Hello <link href=\"http://a.test\"><u>[1]</u></link> world".data =
      "Hello [1] world".data := by
  constructor
  · decide
  · decide

/-- Claim C6.  For every scanned document: the story ends with the
citation-summary block; that block is present exactly when the citation
table is non-empty; when present it consists of the `Citation Sources`
heading block followed by exactly one reference entry (showing the
number and, twice, the url — so repeated urls repeat) per table entry in
table order; and the table's numbers are `1, 2, …` in ascending order
with keys the corresponding decimal strings. -/
theorem bibliography_iff_citations (xml : String) (company_name : List Char) :
    buildStory (parseXmlTags xml) company_name =
      [Flowable.para (parseXmlTags xml).title "ReportTitle".data,
       Flowable.spacer 1 20, Flowable.hr 2, Flowable.spacer 1 20] ++
      ((parseXmlTags xml).sections.map
        (sectionFlows (parseXmlTags xml).citations)).flatten ++
      citationSummaryFlows (parseXmlTags xml).citations
    ∧ (citationSummaryFlows (parseXmlTags xml).citations = [] ↔
        (parseXmlTags xml).citations = [])
    ∧ ((parseXmlTags xml).citations ≠ [] →
        citationSummaryFlows (parseXmlTags xml).citations =
          [Flowable.spacer 1 20, Flowable.hr 1, Flowable.spacer 1 15,
           Flowable.para "Citation Sources".data "SubHeadingBold".data,
           Flowable.spacer 1 10] ++
          ((parseXmlTags xml).citations.map (fun p =>
            [Flowable.para (citationEntryText p.1 p.2.url) "ContentText".data,
             Flowable.spacer 1 4])).flatten)
    ∧ (parseXmlTags xml).citations.map (fun p => p.2.number) =
        List.range' 1 (parseXmlTags xml).citations.length
    ∧ (parseXmlTags xml).citations.map (fun p => p.1) =
        (List.range' 1 (parseXmlTags xml).citations.length).map
          (fun n => (toString n).data) := by
  have hinl : (parseXmlTags xml).inline_citations =
      freshSecCits (sortByStart (allSectionMatches xml.data)) 1 := by
    simp [parseXmlTags, parseSectionsAux_inline]
  have htab : (parseXmlTags xml).citations =
      (parseXmlTags xml).inline_citations.map
        (fun i => ((toString i.number).data, i)) := by
    rw [hinl]
    simp [parseXmlTags, parseSectionsAux_table]
  have hnum : (parseXmlTags xml).inline_citations.map (fun i => i.number) =
      List.range' 1 (parseXmlTags xml).inline_citations.length := by
    rw [hinl]; exact freshSecCits_numbers _ 1
  refine ⟨rfl, ?_, ?_, ?_, ?_⟩
  · unfold citationSummaryFlows
    by_cases h : (parseXmlTags xml).citations = []
    · simp [h]
    · simp [h]
  · intro h
    unfold citationSummaryFlows
    rw [if_neg h]
  · rw [htab]
    simp only [List.map_map, List.length_map]
    exact hnum
  · rw [htab]
    simp only [List.map_map, List.length_map]
    rw [← hnum]
    simp [List.map_map, Function.comp]

/-- Concrete closed instance for claim C6: on the one-citation scenario
input the citation summary consists of the heading block and exactly one
reference entry, `[1]` with url `http://a.test`. -/
theorem bibliography_iff_citations_witness :
    citationSummaryFlows (parseXmlTags c2Input).citations =
      [Flowable.spacer 1 20, Flowable.hr 1, Flowable.spacer 1 15,
       Flowable.para "Citation Sources".data "SubHeadingBold".data,
       Flowable.spacer 1 10,
       Flowable.para (citationEntryText "1".data "http://a.test".data)
         "ContentText".data,
       Flowable.spacer 1 4] := by
  have h := (bibliography_iff_citations c2Input "Acme".data).2.2.1 (by decide)
  rw [h]
  decide

/-- Claim C7.  The slide renderer emits exactly one slide per parsed
slide section, in source order (it is precisely the map of
`_create_slide` over the parsed slides, so none is synthesized or
dropped), and every emitted slide's body holds at most five
bullet-equivalent items (bullet points plus content blocks), excess
being truncated by `all_content[:5]`. -/
theorem one_slide_per_section_with_bullet_cap (parsed : PresentationData) :
    renderSlides parsed = parsed.slides.map createSlide
    ∧ (renderSlides parsed).length = parsed.slides.length
    ∧ ∀ s ∈ renderSlides parsed, s.body.length ≤ 5 := by
  refine ⟨rfl, by simp [renderSlides], ?_⟩
  intro s hs
  rw [renderSlides, List.mem_map] at hs
  obtain ⟨d, _, rfl⟩ := hs
  unfold createSlide createTitleSlide createContentSlide createUseCaseSlide
  split_ifs <;> simp [List.length_take]

/-- Concrete closed instance for claim C7: a model with one slide of
seven items renders to one slide whose body was truncated to five. -/
theorem one_slide_per_section_with_bullet_cap_witness :
    (createSlide c7SlideData).body.length ≤ 5
    ∧ (createSlide c7SlideData).body.length = 5
    ∧ (renderSlides ⟨[], [], [c7SlideData], [], 1⟩).length = 1 := by
  refine ⟨(one_slide_per_section_with_bullet_cap ⟨[], [], [c7SlideData], [], 1⟩).2.2
    (createSlide c7SlideData) (by decide), by decide, by decide⟩

/-- Claim C10.  A slide whose type attribute is none of `title_slide`,
`content_slide`, `use_case_slide` is rendered by the default branch as an
ordinary content slide — not dropped — and the parsed slide list (hence
the emitted slide total) contains one entry per slide-pattern match
regardless of the type attribute. -/
theorem unknown_slide_type_rendered_as_content (d : SlideData)
    (h1 : d.type ≠ "title_slide".data) (h2 : d.type ≠ "content_slide".data)
    (h3 : d.type ≠ "use_case_slide".data) :
    createSlide d = createContentSlide d
    ∧ ∀ xml : String,
        (parsePresentationXml xml).slides.length = (slideMatches xml.data).length := by
  constructor
  · unfold createSlide
    rw [if_neg h1, if_neg h2, if_neg h3]
  · intro xml
    simp [parsePresentationXml]

/-- Concrete closed instance for claim C10: a slide typed
`mystery_slide` is rendered via the content-slide branch. -/
theorem unknown_slide_type_rendered_as_content_witness :
    createSlide { c7SlideData with type := "mystery_slide".data } =
      createContentSlide { c7SlideData with type := "mystery_slide".data } :=
  (unknown_slide_type_rendered_as_content _ (by decide) (by decide) (by decide)).1

/-- Claim C8.  Template resolution is a pure lookup over the fixed
five-entry catalogue `TEMPLATE_REGISTRY`; any identifier not present in
the catalogue resolves (totally, never failing) to the designated
default `first_deck` template. -/
theorem template_catalogue_five_with_fallback :
    TEMPLATE_REGISTRY.length = 5
    ∧ ∀ s : List Char, regLookup s TEMPLATE_REGISTRY = none →
        validateStyle s = "first_deck".data ∧
        resolveTemplate s = TemplateClass.FirstDeckTemplate := by
  refine ⟨rfl, ?_⟩
  intro s h
  have hv : validateStyle s = "first_deck".data := by
    simp [validateStyle, h]
  refine ⟨hv, ?_⟩
  unfold resolveTemplate
  rw [hv]
  decide

/-- Concrete closed instance for claim C8: the unknown identifier
`corporate` falls back to the `first_deck` template. -/
theorem template_catalogue_five_with_fallback_witness :
    validateStyle "corporate".data = "first_deck".data ∧
    resolveTemplate "corporate".data = TemplateClass.FirstDeckTemplate :=
  template_catalogue_five_with_fallback.2 "corporate".data (by decide)

end ReportGen

